import Mathlib

/-!
Shallow embedding of the deneme-webapp finance dashboard core
(src/src/App.tsx): entity types, the balance calculator `getBalance`,
the aggregation layer (`totalRemainingDebt`, `recentTransactions`,
`highestDebtAccount`, `accountsWithoutRecentPayments`), the mutation
layer (`deleteAccount`), and the persistence adapter
(`loadFromStorage` / `saveToStorage`).

JavaScript numbers are modelled as exact rationals (ℚ); dates, stored
as ISO strings in the app and compared through `new Date(...)`, are
modelled by their millisecond timestamps as rationals.
-/

namespace Deneme

/-- Account type union from src/types: CREDIT_CARD, LOAN, OVERDRAFT. -/
inductive AccountType where
| CREDIT_CARD
| LOAN
| OVERDRAFT
deriving DecidableEq

/-- Transaction direction union: NEGATIVE (charge), POSITIVE (payment). -/
inductive TransactionDirection where
| NEGATIVE
| POSITIVE
deriving DecidableEq

/-- Account record (src/types, as used by App.tsx). -/
structure Account where
  id : String
  name : String
  type : AccountType
  bankName : String
  currency : String
  startingDebt : ℚ
  createdAt : String
  notes : String
deriving DecidableEq

/-- Transaction record (src/types, as used by App.tsx). The `date`
field is the millisecond timestamp of the stored ISO string. -/
structure Transaction where
  id : String
  accountId : String
  date : ℚ
  amount : ℚ
  direction : TransactionDirection
  category : String
  description : String
deriving DecidableEq

/-- Balance calculator, App.tsx lines 153-159: filter the transaction
collection to the account's id, then fold from `startingDebt`, adding
the amount of each NEGATIVE transaction and subtracting the amount of
each POSITIVE one. -/
def getBalance (account : Account) (transactions : List Transaction) : ℚ :=
  (transactions.filter (fun t => decide (t.accountId = account.id))).foldl
    (fun total t =>
      if t.direction = TransactionDirection.NEGATIVE then total + t.amount
      else total - t.amount)
    account.startingDebt

/-- Signed contribution of one transaction to its account's balance. -/
def txDelta (t : Transaction) : ℚ :=
  if t.direction = TransactionDirection.NEGATIVE then t.amount else -t.amount

theorem balance_foldl_eq_sum (l : List Transaction) (init : ℚ) :
    l.foldl
      (fun total t =>
        if t.direction = TransactionDirection.NEGATIVE then total + t.amount
        else total - t.amount)
      init = init + (l.map txDelta).sum := by
  induction l generalizing init with
  | nil => simp
  | cons t rest ih =>
      simp only [List.foldl_cons, List.map_cons, List.sum_cons, ih, txDelta]
      by_cases h : t.direction = TransactionDirection.NEGATIVE
      · simp [h]; ring
      · simp [h]; ring

theorem getBalance_eq_sum (a : Account) (T : List Transaction) :
    getBalance a T =
      a.startingDebt +
        ((T.filter (fun t => decide (t.accountId = a.id))).map txDelta).sum := by
  unfold getBalance
  exact balance_foldl_eq_sum _ _

/-- C1: the balance calculator is invariant under any permutation of the
transaction collection — filtering and summing signed contributions do
not depend on the order of the list. -/
theorem getBalance_perm_invariant (a : Account) (T Tp : List Transaction)
    (h : List.Perm T Tp) : getBalance a T = getBalance a Tp := by
  rw [getBalance_eq_sum, getBalance_eq_sum]
  have hf : List.Perm
      (T.filter (fun t => decide (t.accountId = a.id)))
      (Tp.filter (fun t => decide (t.accountId = a.id))) := h.filter _
  have hm := hf.map txDelta
  rw [hm.sum_eq]

def sampleAccount : Account :=
  { id := "acc-1", name := "Everyday Card", type := AccountType.CREDIT_CARD,
    bankName := "Deneme Bank", currency := "TRY", startingDebt := 12000,
    createdAt := "2024-01-01", notes := "n" }

def sampleCharge : Transaction :=
  { id := "tx-1", accountId := "acc-1", date := 0, amount := 2500,
    direction := TransactionDirection.NEGATIVE, category := "Groceries",
    description := "Weekly essentials" }

def samplePayment : Transaction :=
  { id := "tx-2", accountId := "acc-1", date := 0, amount := 1500,
    direction := TransactionDirection.POSITIVE, category := "Payment",
    description := "Monthly payment" }

/-- C1 witness: swapping the two sample transactions leaves the balance
of the sample account unchanged. -/
theorem getBalance_perm_invariant_witness :
    List.Perm [sampleCharge, samplePayment] [samplePayment, sampleCharge] ∧
      getBalance sampleAccount [sampleCharge, samplePayment] =
        getBalance sampleAccount [samplePayment, sampleCharge] :=
  ⟨List.Perm.swap samplePayment sampleCharge [],
    getBalance_perm_invariant sampleAccount _ _
      (List.Perm.swap samplePayment sampleCharge [])⟩

/-- C7: an account with no matching transaction in the collection — in
particular with the empty collection — gets back exactly its
`startingDebt`; the function is total, with no error path. -/
theorem getBalance_no_matching_tx (a : Account) (T : List Transaction)
    (h : ∀ t ∈ T, t.accountId ≠ a.id) : getBalance a T = a.startingDebt := by
  rw [getBalance_eq_sum]
  have hnil : T.filter (fun t => decide (t.accountId = a.id)) = [] := by
    rw [List.filter_eq_nil_iff]
    intro t ht
    simpa using h t ht
  rw [hnil]
  simp

/-- C7 witness: the sample account at the empty collection, and at a
collection holding only another account's transaction, keeps its
starting debt of 12000. -/
theorem getBalance_no_matching_tx_witness :
    (∀ t ∈ ([] : List Transaction), t.accountId ≠ sampleAccount.id) ∧
      getBalance sampleAccount [] = sampleAccount.startingDebt :=
  ⟨by simp, getBalance_no_matching_tx sampleAccount [] (by simp)⟩

/-- C6: appending one transaction for the account changes the balance by
exactly its signed amount: a NEGATIVE transaction adds `amount`, a
POSITIVE one subtracts `amount`. -/
theorem getBalance_append_delta (a : Account) (T : List Transaction)
    (t : Transaction) (hid : t.accountId = a.id) :
    (t.direction = TransactionDirection.NEGATIVE →
        getBalance a (T ++ [t]) = getBalance a T + t.amount) ∧
      (t.direction = TransactionDirection.POSITIVE →
        getBalance a (T ++ [t]) = getBalance a T - t.amount) := by
  have hfilter :
      (T ++ [t]).filter (fun t => decide (t.accountId = a.id)) =
        T.filter (fun t => decide (t.accountId = a.id)) ++ [t] := by
    rw [List.filter_append]
    simp [hid]
  constructor
  · intro hdir
    rw [getBalance_eq_sum, getBalance_eq_sum, hfilter]
    simp [txDelta, hdir]
    ring
  · intro hdir
    rw [getBalance_eq_sum, getBalance_eq_sum, hfilter]
    have : txDelta t = -t.amount := by
      simp [txDelta, hdir]
    simp [this]
    ring

/-- C6 witness: appending the sample NEGATIVE charge of 2500 raises the
sample account's balance by 2500, and appending the sample POSITIVE
payment of 1500 lowers it by 1500. -/
theorem getBalance_append_delta_witness :
    sampleCharge.accountId = sampleAccount.id ∧
      sampleCharge.direction = TransactionDirection.NEGATIVE ∧
      getBalance sampleAccount ([] ++ [sampleCharge]) =
        getBalance sampleAccount [] + sampleCharge.amount ∧
      samplePayment.accountId = sampleAccount.id ∧
      samplePayment.direction = TransactionDirection.POSITIVE ∧
      getBalance sampleAccount ([] ++ [samplePayment]) =
        getBalance sampleAccount [] - samplePayment.amount :=
  ⟨rfl, rfl,
    (getBalance_append_delta sampleAccount [] sampleCharge rfl).1 rfl,
    rfl, rfl,
    (getBalance_append_delta sampleAccount [] samplePayment rfl).2 rfl⟩

/-- Per-account summaries, App.tsx lines 668-671: each account paired
with its current balance. -/
def accountSummaries (accs : List Account) (txs : List Transaction) :
    List (Account × ℚ) :=
  accs.map (fun a => (a, getBalance a txs))

/-- Total remaining debt, App.tsx lines 673-676: fold over the
summaries, adding `Math.max(balance, 0)` for each account. -/
def totalRemainingDebt (accs : List Account) (txs : List Transaction) : ℚ :=
  (accountSummaries accs txs).foldl (fun sum e => sum + max e.2 0) 0

theorem totalRemainingDebt_foldl (l : List (Account × ℚ)) (init : ℚ) :
    l.foldl (fun sum e => sum + max e.2 0) init =
      init + (l.map (fun e => max e.2 0)).sum := by
  induction l generalizing init with
  | nil => simp
  | cons e rest ih =>
      simp only [List.foldl_cons, List.map_cons, List.sum_cons, ih]
      ring

theorem totalRemainingDebt_eq_sum (accs : List Account)
    (txs : List Transaction) :
    totalRemainingDebt accs txs =
      (accs.map (fun a => max (getBalance a txs) 0)).sum := by
  unfold totalRemainingDebt accountSummaries
  rw [totalRemainingDebt_foldl, List.map_map]
  exact zero_add _

/-- C2: the total-remaining-debt aggregate equals the sum over all
accounts of the clamped balance `max(getBalance, 0)`, it is always
nonnegative, and an account whose balance is negative contributes
exactly zero: removing it from the collection leaves the total
unchanged. -/
theorem totalRemainingDebt_spec (accs : List Account)
    (txs : List Transaction) :
    totalRemainingDebt accs txs =
        (accs.map (fun a => max (getBalance a txs) 0)).sum ∧
      0 ≤ totalRemainingDebt accs txs ∧
      ∀ pre post (a : Account), getBalance a txs < 0 →
        totalRemainingDebt (pre ++ a :: post) txs =
          totalRemainingDebt (pre ++ post) txs := by
  refine ⟨totalRemainingDebt_eq_sum accs txs, ?_, ?_⟩
  · rw [totalRemainingDebt_eq_sum]
    apply List.sum_nonneg
    intro q hq
    rw [List.mem_map] at hq
    obtain ⟨a, _, rfl⟩ := hq
    exact le_max_right _ _
  · intro pre post a hneg
    rw [totalRemainingDebt_eq_sum, totalRemainingDebt_eq_sum]
    have hclamp : max (getBalance a txs) 0 = 0 := max_eq_right hneg.le
    simp [hclamp]

/-- Sample account that ends up in credit: no starting debt and one
payment of 100 against it. -/
def creditAccount : Account :=
  { id := "acc-2", name := "Paid Card", type := AccountType.CREDIT_CARD,
    bankName := "Deneme Bank", currency := "TRY", startingDebt := 0,
    createdAt := "2024-01-01", notes := "n" }

def creditPayment : Transaction :=
  { id := "tx-3", accountId := "acc-2", date := 0, amount := 100,
    direction := TransactionDirection.POSITIVE, category := "Payment",
    description := "Extra payment" }

/-- C2 witness: with the credit account's balance at -100, dropping it
from the collection leaves the total remaining debt unchanged. -/
theorem totalRemainingDebt_spec_witness :
    getBalance creditAccount [creditPayment] < 0 ∧
      totalRemainingDebt ([sampleAccount] ++ creditAccount :: [])
          [creditPayment] =
        totalRemainingDebt ([sampleAccount] ++ []) [creditPayment] :=
  ⟨by simp [getBalance, creditAccount, creditPayment],
    (totalRemainingDebt_spec ([sampleAccount] ++ creditAccount :: [])
          [creditPayment]).2.2 [sampleAccount] [] creditAccount
      (by simp [getBalance, creditAccount, creditPayment])⟩

/-- Delete-account mutation, App.tsx lines 752-755: one logical step
filters the account out of the account collection and every transaction
carrying its id out of the transaction collection. -/
def deleteAccount (accountId : String) (accs : List Account)
    (txs : List Transaction) : List Account × List Transaction :=
  (accs.filter (fun a => decide (a.id ≠ accountId)),
    txs.filter (fun t => decide (t.accountId ≠ accountId)))

/-- C3: deleting account id `d` keeps exactly the accounts whose id
differs from `d` and exactly the transactions whose accountId differs
from `d`; both surviving collections are sublists of the originals, so
survivors are unchanged and keep their order. -/
theorem deleteAccount_spec (d : String) (accs : List Account)
    (txs : List Transaction) :
    (∀ a : Account, a ∈ (deleteAccount d accs txs).1 ↔ a ∈ accs ∧ a.id ≠ d) ∧
      (∀ t : Transaction,
        t ∈ (deleteAccount d accs txs).2 ↔ t ∈ txs ∧ t.accountId ≠ d) ∧
      List.Sublist (deleteAccount d accs txs).1 accs ∧
      List.Sublist (deleteAccount d accs txs).2 txs := by
  refine ⟨?_, ?_, ?_, ?_⟩
  · intro a
    simp [deleteAccount]
  · intro t
    simp [deleteAccount]
  · exact List.filter_sublist _
  · exact List.filter_sublist _

/-- One day in milliseconds; the recent-activity window spans 30 of
them (App.tsx lines 690-694 move `windowStart` back 30 calendar days
from `now`). -/
def dayMs : ℚ := 86400000

/-- Start of the trailing 30-day window for a given evaluation time. -/
def windowStartOf (now : ℚ) : ℚ := now - 30 * dayMs

/-- Recent transactions, App.tsx lines 690-694: keep each transaction
whose date is at or after `windowStart`; the filter imposes no upper
bound. -/
def recentTransactions (now : ℚ) (txs : List Transaction) :
    List Transaction :=
  txs.filter (fun t => decide (windowStartOf now ≤ t.date))

def futureTx : Transaction :=
  { id := "tx-4", accountId := "acc-1", date := 86400000, amount := 5,
    direction := TransactionDirection.POSITIVE, category := "Payment",
    description := "Post-dated" }

/-- C4 counterexample: at evaluation time 0, a transaction dated one day
after `now` is in the recent set, although the claim states that a
transaction dated after `now` is not. -/
theorem recentTransactions_future_counterexample :
    futureTx ∈ recentTransactions 0 [futureTx] ∧ ¬ futureTx.date ≤ 0 := by
  constructor
  · simp [recentTransactions, windowStartOf, dayMs, futureTx]
    norm_num
  · simp [futureTx]

theorem mem_recent_iff (now : ℚ) (t : Transaction)
    (txs : List Transaction) :
    t ∈ recentTransactions now txs ↔ t ∈ txs ∧ windowStartOf now ≤ t.date := by
  simp [recentTransactions]

/-- C4 amended: a transaction is in the recent-activity set iff it is in
the collection and its date is at or after `now - 30 days`; the window
has an inclusive lower bound and no upper bound, so future-dated
transactions are included. -/
theorem recentTransactions_mem (now : ℚ) (t : Transaction)
    (txs : List Transaction) :
    t ∈ recentTransactions now txs ↔ t ∈ txs ∧ windowStartOf now ≤ t.date :=
  mem_recent_iff now t txs

/-- Accounts lacking recent payments, App.tsx lines 724-733: keep each
summary whose account has no POSITIVE transaction with its id inside
the recent-activity set. -/
def accountsWithoutRecentPayments (now : ℚ) (accs : List Account)
    (txs : List Transaction) : List (Account × ℚ) :=
  (accountSummaries accs txs).filter
    (fun e => ! (recentTransactions now txs).any
      (fun t => decide (t.accountId = e.1.id) &&
        decide (t.direction = TransactionDirection.POSITIVE)))

/-- C5: an account is in the lacking-recent-payments set iff no
transaction of the recent-activity set is a POSITIVE one carrying its
id; an account with no transaction at all in the collection is always
in the set, and prepending a POSITIVE transaction for the account dated
at evaluation time removes it from the set. -/
theorem accountsWithoutRecentPayments_spec (now : ℚ) (accs : List Account)
    (txs : List Transaction) (a : Account) (ha : a ∈ accs) :
    ((a, getBalance a txs) ∈ accountsWithoutRecentPayments now accs txs ↔
        ¬ ∃ t ∈ recentTransactions now txs,
            t.accountId = a.id ∧
              t.direction = TransactionDirection.POSITIVE) ∧
      ((∀ t ∈ txs, t.accountId ≠ a.id) →
        (a, getBalance a txs) ∈ accountsWithoutRecentPayments now accs txs) ∧
      (∀ t : Transaction, t.accountId = a.id →
        t.direction = TransactionDirection.POSITIVE → t.date = now →
        ∀ b : ℚ, (a, b) ∉ accountsWithoutRecentPayments now accs (t :: txs)) := by
  have hmem_iff : ∀ (ts : List Transaction) (b : ℚ),
      ((a, b) ∈ accountsWithoutRecentPayments now accs ts ↔
        ((a, b) ∈ accountSummaries accs ts ∧
          ¬ ∃ t ∈ recentTransactions now ts,
              t.accountId = a.id ∧
                t.direction = TransactionDirection.POSITIVE)) := by
    intro ts b
    simp [accountsWithoutRecentPayments, List.mem_filter]
  have hsum : (a, getBalance a txs) ∈ accountSummaries accs txs := by
    simp only [accountSummaries, List.mem_map]
    exact ⟨a, ha, rfl⟩
  refine ⟨?_, ?_, ?_⟩
  · rw [hmem_iff]
    constructor
    · intro h
      exact h.2
    · intro h
      exact ⟨hsum, h⟩
  · intro hnone
    rw [hmem_iff]
    refine ⟨hsum, ?_⟩
    rintro ⟨t, htmem, hid, _⟩
    have : t ∈ txs := ((mem_recent_iff now t txs).mp htmem).1
    exact hnone t this hid
  · intro t hid hdir hdate b hmem
    rw [hmem_iff] at hmem
    apply hmem.2
    refine ⟨t, ?_, hid, hdir⟩
    rw [mem_recent_iff]
    refine ⟨List.mem_cons_self t txs, ?_⟩
    rw [hdate, windowStartOf, dayMs]
    norm_num

/-- C5 witness: the sample account with no transactions at all is in the
lacking-recent-payments set, and a POSITIVE transaction with its id
dated at evaluation time removes it. -/
theorem accountsWithoutRecentPayments_spec_witness :
    sampleAccount ∈ [sampleAccount] ∧
      (((sampleAccount, getBalance sampleAccount []) ∈
            accountsWithoutRecentPayments 0 [sampleAccount] [] ↔
          ¬ ∃ t ∈ recentTransactions 0 [],
              t.accountId = sampleAccount.id ∧
                t.direction = TransactionDirection.POSITIVE) ∧
        ((∀ t ∈ ([] : List Transaction), t.accountId ≠ sampleAccount.id) →
          (sampleAccount, getBalance sampleAccount []) ∈
            accountsWithoutRecentPayments 0 [sampleAccount] []) ∧
        (∀ t : Transaction, t.accountId = sampleAccount.id →
          t.direction = TransactionDirection.POSITIVE → t.date = 0 →
          ∀ b : ℚ, (sampleAccount, b) ∉
            accountsWithoutRecentPayments 0 [sampleAccount] (t :: []))) :=
  ⟨List.mem_cons_self sampleAccount [],
    accountsWithoutRecentPayments_spec 0 [sampleAccount] [] sampleAccount
      (List.mem_cons_self sampleAccount [])⟩

/-- One step of the highest-debt reduce, App.tsx lines 712-722: start
from null, clamp each balance at 0, and replace the running best only on
a strictly greater debt, so ties keep the earlier account. -/
def highestStep (current : Option (Account × ℚ)) (entry : Account × ℚ) :
    Option (Account × ℚ) :=
  match current with
  | none => some (entry.1, max entry.2 0)
  | some c =>
      if max entry.2 0 > c.2 then some (entry.1, max entry.2 0) else some c

/-- Highest-debt account aggregate, App.tsx lines 712-722. -/
def highestDebtAccount (accs : List Account) (txs : List Transaction) :
    Option (Account × ℚ) :=
  (accountSummaries accs txs).foldl highestStep none

theorem highest_foldl_spec (l : List (Account × ℚ)) (a : Account) (d : ℚ) :
    ∃ ap dp, l.foldl highestStep (some (a, d)) = some (ap, dp) ∧
      d ≤ dp ∧ (∀ e ∈ l, max e.2 0 ≤ dp) ∧
      ((ap = a ∧ dp = d) ∨
        ∃ i, ∃ hi : i < l.length, ap = (l.get ⟨i, hi⟩).1 ∧
          dp = max (l.get ⟨i, hi⟩).2 0 ∧ d < dp ∧
          ∀ j, ∀ hj : j < i,
            max ((l.get ⟨j, Nat.lt_trans hj hi⟩).2) 0 < dp) := by
  induction l generalizing a d with
  | nil => exact ⟨a, d, rfl, le_refl d, by simp, Or.inl ⟨rfl, rfl⟩⟩
  | cons x rest ih =>
      rw [List.foldl_cons]
      by_cases hgt : max x.2 0 > d
      · have hstep : highestStep (some (a, d)) x = some (x.1, max x.2 0) := by
          simp [highestStep, hgt]
        rw [hstep]
        obtain ⟨ap, dp, hfold, hle, hall, hcase⟩ := ih x.1 (max x.2 0)
        refine ⟨ap, dp, hfold, le_trans (le_of_lt hgt) hle, ?_, ?_⟩
        · intro e he
          rcases List.mem_cons.mp he with rfl | he'
          · exact hle
          · exact hall e he'
        · rcases hcase with ⟨hap, hdp⟩ | ⟨i, hi, hap, hdp, hdlt, hprev⟩
          · refine Or.inr ⟨0, Nat.succ_pos _, ?_, ?_, ?_, ?_⟩
            · exact hap
            · exact hdp
            · rw [hdp]; exact hgt
            · intro j hj
              exact absurd hj (Nat.not_lt_zero j)
          · refine Or.inr ⟨i + 1, Nat.succ_lt_succ hi, ?_, ?_, ?_, ?_⟩
            · exact hap
            · exact hdp
            · exact lt_trans hgt hdlt
            · intro j hj
              cases j with
              | zero => exact hdlt
              | succ k => exact hprev k (Nat.lt_of_succ_lt_succ hj)
      · have hle0 : max x.2 0 ≤ d := le_of_not_lt hgt
        have hstep : highestStep (some (a, d)) x = some (a, d) := by
          simp [highestStep, hgt]
        rw [hstep]
        obtain ⟨ap, dp, hfold, hle, hall, hcase⟩ := ih a d
        refine ⟨ap, dp, hfold, hle, ?_, ?_⟩
        · intro e he
          rcases List.mem_cons.mp he with rfl | he'
          · exact le_trans hle0 hle
          · exact hall e he'
        · rcases hcase with ⟨hap, hdp⟩ | ⟨i, hi, hap, hdp, hdlt, hprev⟩
          · exact Or.inl ⟨hap, hdp⟩
          · refine Or.inr ⟨i + 1, Nat.succ_lt_succ hi, ?_, ?_, ?_, ?_⟩
            · exact hap
            · exact hdp
            · exact hdlt
            · intro j hj
              cases j with
              | zero => exact lt_of_le_of_lt hle0 hdlt
              | succ k => exact hprev k (Nat.lt_of_succ_lt_succ hj)

/-- C10: for a non-empty account collection the highest-debt aggregate
returns some pair: its debt is the clamped balance of its account, it
bounds every account's clamped balance, and the account is the first in
collection order attaining that bound (every earlier account is
strictly below it); when every balance is zero or negative the result
is the first account with debt 0. -/
theorem highestDebtAccount_spec (accs : List Account) (txs : List Transaction)
    (hne : accs ≠ []) :
    (∃ a d, highestDebtAccount accs txs = some (a, d) ∧
        d = max (getBalance a txs) 0 ∧
        (∀ b ∈ accs, max (getBalance b txs) 0 ≤ d) ∧
        ∃ i, ∃ hi : i < accs.length, accs.get ⟨i, hi⟩ = a ∧
          ∀ j, ∀ hj : j < i,
            max (getBalance (accs.get ⟨j, Nat.lt_trans hj hi⟩) txs) 0 < d) ∧
      (∀ a0 tl, accs = a0 :: tl → (∀ b ∈ accs, getBalance b txs ≤ 0) →
        highestDebtAccount accs txs = some (a0, 0)) := by
  obtain ⟨a0, tl, rfl⟩ : ∃ a0 tl, accs = a0 :: tl := by
    cases accs with
    | nil => exact absurd rfl hne
    | cons h t => exact ⟨h, t, rfl⟩
  have hunfold : highestDebtAccount (a0 :: tl) txs =
      (accountSummaries tl txs).foldl highestStep
        (some (a0, max (getBalance a0 txs) 0)) := rfl
  obtain ⟨ap, dp, hfold, hle, hall, hcase⟩ :=
    highest_foldl_spec (accountSummaries tl txs) a0 (max (getBalance a0 txs) 0)
  have hlen : (accountSummaries tl txs).length = tl.length := by
    simp [accountSummaries]
  have hget : ∀ (k : Nat) (hk : k < (accountSummaries tl txs).length),
      (accountSummaries tl txs).get ⟨k, hk⟩ =
        (tl.get ⟨k, hlen ▸ hk⟩, getBalance (tl.get ⟨k, hlen ▸ hk⟩) txs) := by
    intro k hk
    simp [accountSummaries, List.get_eq_getElem]
  have hmain : ∃ a d, highestDebtAccount (a0 :: tl) txs = some (a, d) ∧
      d = max (getBalance a txs) 0 ∧
      (∀ b ∈ a0 :: tl, max (getBalance b txs) 0 ≤ d) ∧
      ∃ i, ∃ hi : i < (a0 :: tl).length, (a0 :: tl).get ⟨i, hi⟩ = a ∧
        ∀ j, ∀ hj : j < i,
          max (getBalance ((a0 :: tl).get ⟨j, Nat.lt_trans hj hi⟩) txs) 0 < d := by
    refine ⟨ap, dp, by rw [hunfold, hfold], ?_, ?_, ?_⟩
    · rcases hcase with ⟨hap, hdp⟩ | ⟨i, hi, hap, hdp, hdlt, hprev⟩
      · rw [hap, hdp]
      · rw [hget i hi] at hap hdp
        rw [hap, hdp]
    · intro b hb
      rcases List.mem_cons.mp hb with rfl | hb'
      · exact hle
      · apply hall (b, getBalance b txs)
        simp only [accountSummaries, List.mem_map]
        exact ⟨b, hb', rfl⟩
    · rcases hcase with ⟨hap, hdp⟩ | ⟨i, hi, hap, hdp, hdlt, hprev⟩
      · refine ⟨0, Nat.succ_pos _, hap.symm, ?_⟩
        intro j hj
        exact absurd hj (Nat.not_lt_zero j)
      · have hi' : i < tl.length := hlen ▸ hi
        refine ⟨i + 1, Nat.succ_lt_succ hi', ?_, ?_⟩
        · rw [hget i hi] at hap
          exact hap.symm
        · intro j hj
          cases j with
          | zero => exact hdlt
          | succ k =>
              have hk : k < i := Nat.lt_of_succ_lt_succ hj
              have := hprev k hk
              rw [hget k (Nat.lt_trans hk hi)] at this
              exact this
  refine ⟨hmain, ?_⟩
  intro a0' tl' heq hall0
  obtain ⟨a, d, heq2, hd, _, i, hi, hgeti, hprev⟩ := hmain
  have ha_mem : a ∈ a0 :: tl := hgeti ▸ List.get_mem _ _ _
  have hd0 : d = 0 := by
    rw [hd]
    exact max_eq_right (hall0 a ha_mem)
  have hi0 : i = 0 := by
    by_contra hne0
    have hpos : 0 < i := Nat.pos_of_ne_zero hne0
    have hlt := hprev 0 hpos
    rw [hd0] at hlt
    exact absurd hlt (not_lt.mpr (le_max_right _ _))
  subst hi0
  have ha : a = a0 := hgeti.symm
  injection heq with h1 h2
  rw [heq2, ha, hd0, ← h1]

/-- C10 witness: with the single sample account and no transactions the
aggregate returns it with its clamped starting debt. -/
theorem highestDebtAccount_spec_witness :
    ([sampleAccount] : List Account) ≠ [] ∧
      ((∃ a d, highestDebtAccount [sampleAccount] [] = some (a, d) ∧
          d = max (getBalance a []) 0 ∧
          (∀ b ∈ [sampleAccount], max (getBalance b []) 0 ≤ d) ∧
          ∃ i, ∃ hi : i < ([sampleAccount] : List Account).length,
            ([sampleAccount] : List Account).get ⟨i, hi⟩ = a ∧
            ∀ j, ∀ hj : j < i,
              max (getBalance
                (([sampleAccount] : List Account).get
                  ⟨j, Nat.lt_trans hj hi⟩) []) 0 < d) ∧
        (∀ a0 tl, ([sampleAccount] : List Account) = a0 :: tl →
          (∀ b ∈ [sampleAccount], getBalance b [] ≤ 0) →
          highestDebtAccount [sampleAccount] [] = some (a0, 0))) :=
  ⟨by simp, highestDebtAccount_spec [sampleAccount] [] (by simp)⟩

/-- JSON values at the abstraction level of `JSON.stringify` and
`JSON.parse`: the app stores the stringified value and parses it back,
and the two are mutually inverse on well-formed data, so the store is
modelled as holding the parsed tree. -/
inductive Json where
| str : String → Json
| num : ℚ → Json
| arr : List Json → Json
| obj : List (String × Json) → Json

def Json.asStr : Json → Option String
  | Json.str s => some s
  | _ => none

def Json.asNum : Json → Option ℚ
  | Json.num q => some q
  | _ => none

def Json.getField (j : Json) (k : String) : Option Json :=
  match j with
  | Json.obj fields => fields.lookup k
  | _ => none

def encodeAccountType : AccountType → String
  | AccountType.CREDIT_CARD => "CREDIT_CARD"
  | AccountType.LOAN => "LOAN"
  | AccountType.OVERDRAFT => "OVERDRAFT"

def decodeAccountType : String → Option AccountType
  | "CREDIT_CARD" => some AccountType.CREDIT_CARD
  | "LOAN" => some AccountType.LOAN
  | "OVERDRAFT" => some AccountType.OVERDRAFT
  | _ => none

def encodeDirection : TransactionDirection → String
  | TransactionDirection.NEGATIVE => "NEGATIVE"
  | TransactionDirection.POSITIVE => "POSITIVE"

def decodeDirection : String → Option TransactionDirection
  | "NEGATIVE" => some TransactionDirection.NEGATIVE
  | "POSITIVE" => some TransactionDirection.POSITIVE
  | _ => none

/-- Serialized form of an Account record. -/
def encodeAccount (a : Account) : Json :=
  Json.obj [("id", Json.str a.id), ("name", Json.str a.name),
    ("type", Json.str (encodeAccountType a.type)),
    ("bankName", Json.str a.bankName), ("currency", Json.str a.currency),
    ("startingDebt", Json.num a.startingDebt),
    ("createdAt", Json.str a.createdAt), ("notes", Json.str a.notes)]

def decodeAccount (j : Json) : Option Account := do
  let id ← (j.getField "id").bind Json.asStr
  let name ← (j.getField "name").bind Json.asStr
  let ty ← ((j.getField "type").bind Json.asStr).bind decodeAccountType
  let bankName ← (j.getField "bankName").bind Json.asStr
  let currency ← (j.getField "currency").bind Json.asStr
  let startingDebt ← (j.getField "startingDebt").bind Json.asNum
  let createdAt ← (j.getField "createdAt").bind Json.asStr
  let notes ← (j.getField "notes").bind Json.asStr
  pure ⟨id, name, ty, bankName, currency, startingDebt, createdAt, notes⟩

/-- Serialized form of a Transaction record. -/
def encodeTransaction (t : Transaction) : Json :=
  Json.obj [("id", Json.str t.id), ("accountId", Json.str t.accountId),
    ("date", Json.num t.date), ("amount", Json.num t.amount),
    ("direction", Json.str (encodeDirection t.direction)),
    ("category", Json.str t.category),
    ("description", Json.str t.description)]

def decodeTransaction (j : Json) : Option Transaction := do
  let id ← (j.getField "id").bind Json.asStr
  let accountId ← (j.getField "accountId").bind Json.asStr
  let date ← (j.getField "date").bind Json.asNum
  let amount ← (j.getField "amount").bind Json.asNum
  let dir ← ((j.getField "direction").bind Json.asStr).bind decodeDirection
  let category ← (j.getField "category").bind Json.asStr
  let description ← (j.getField "description").bind Json.asStr
  pure ⟨id, accountId, date, amount, dir, category, description⟩

def decodeList {α : Type} (dec : Json → Option α) : List Json → Option (List α)
  | [] => some []
  | j :: rest =>
      match dec j, decodeList dec rest with
      | some a, some l => some (a :: l)
      | _, _ => none

def encodeAccounts (accs : List Account) : Json :=
  Json.arr (accs.map encodeAccount)

def decodeAccounts (j : Json) : Option (List Account) :=
  match j with
  | Json.arr l => decodeList decodeAccount l
  | _ => none

def encodeTransactions (txs : List Transaction) : Json :=
  Json.arr (txs.map encodeTransaction)

def decodeTransactions (j : Json) : Option (List Transaction) :=
  match j with
  | Json.arr l => decodeList decodeTransaction l
  | _ => none

theorem decodeAccount_encodeAccount (a : Account) :
    decodeAccount (encodeAccount a) = some a := by
  cases a with
  | mk id name ty bankName currency startingDebt createdAt notes =>
      cases ty <;> rfl

theorem decodeTransaction_encodeTransaction (t : Transaction) :
    decodeTransaction (encodeTransaction t) = some t := by
  cases t with
  | mk id accountId date amount dir category description =>
      cases dir <;> rfl

theorem decodeList_map {α : Type} (dec : Json → Option α) (enc : α → Json)
    (h : ∀ x, dec (enc x) = some x) (l : List α) :
    decodeList dec (l.map enc) = some l := by
  induction l with
  | nil => rfl
  | cons x rest ih =>
      simp only [List.map_cons, decodeList, h x, ih]

theorem decodeAccounts_encodeAccounts (accs : List Account) :
    decodeAccounts (encodeAccounts accs) = some accs :=
  decodeList_map decodeAccount encodeAccount decodeAccount_encodeAccount accs

theorem decodeTransactions_encodeTransactions (txs : List Transaction) :
    decodeTransactions (encodeTransactions txs) = some txs :=
  decodeList_map decodeTransaction encodeTransaction
    decodeTransaction_encodeTransaction txs

/-- The origin-scoped key-value store: `available` models
`typeof localStorage !== 'undefined'`, and `data` maps each key to its
stored (parsed) value. -/
structure Storage where
  available : Bool
  data : String → Option Json

/-- Persistence write, App.tsx lines 34-42: a no-op when the storage
facility is absent, otherwise store the serialized value under the
key. -/
def saveToStorage {T : Type} (enc : T → Json) (st : Storage) (key : String)
    (value : T) : Storage :=
  if st.available then
    { available := st.available,
      data := fun k => if k = key then some (enc value) else st.data k }
  else st

/-- Persistence read, App.tsx lines 22-32: return the fallback when the
storage facility is absent, the key is missing, or the stored value
fails to deserialize; otherwise the deserialized value. -/
def loadFromStorage {T : Type} (dec : Json → Option T) (st : Storage)
    (key : String) (fallback : T) : T :=
  if st.available then
    match st.data key with
    | none => fallback
    | some j => (dec j).getD fallback
  else fallback

theorem load_save_roundtrip {T : Type} (enc : T → Json) (dec : Json → Option T)
    (h : ∀ x, dec (enc x) = some x) (st : Storage) (key : String) (v : T)
    (fallback : T) (hav : st.available = true) :
    loadFromStorage dec (saveToStorage enc st key v) key fallback = v := by
  unfold saveToStorage loadFromStorage
  rw [hav]
  simp [h v]

/-- C8: with the storage facility available, saving an account or
transaction collection under a key and loading that key back returns a
collection equal to the one saved. -/
theorem storage_roundtrip (st : Storage) (key : String)
    (hav : st.available = true) (accs : List Account)
    (txs : List Transaction) (fbA : List Account) (fbT : List Transaction) :
    loadFromStorage decodeAccounts (saveToStorage encodeAccounts st key accs)
        key fbA = accs ∧
      loadFromStorage decodeTransactions
        (saveToStorage encodeTransactions st key txs) key fbT = txs :=
  ⟨load_save_roundtrip encodeAccounts decodeAccounts
      decodeAccounts_encodeAccounts st key accs fbA hav,
    load_save_roundtrip encodeTransactions decodeTransactions
      decodeTransactions_encodeTransactions st key txs fbT hav⟩

/-- Empty but available store. -/
def availableStorage : Storage :=
  { available := true, data := fun _ => none }

/-- Absent storage facility. -/
def missingStorage : Storage :=
  { available := false, data := fun _ => none }

/-- Store whose every key holds a value that does not deserialize as a
collection. -/
def corruptStorage : Storage :=
  { available := true, data := fun _ => some (Json.str "not-a-collection") }

/-- C8 witness: round-trip of the sample collections through an
available store under the app's storage keys. -/
theorem storage_roundtrip_witness :
    availableStorage.available = true ∧
      loadFromStorage decodeAccounts
          (saveToStorage encodeAccounts availableStorage
            "deneme-webapp.accounts" [sampleAccount])
          "deneme-webapp.accounts" [] = [sampleAccount] ∧
      loadFromStorage decodeTransactions
          (saveToStorage encodeTransactions availableStorage
            "deneme-webapp.transactions" [sampleCharge])
          "deneme-webapp.transactions" [] = [sampleCharge] :=
  ⟨rfl,
    (storage_roundtrip availableStorage "deneme-webapp.accounts" rfl
        [sampleAccount] [sampleCharge] [] []).1,
    (storage_roundtrip availableStorage "deneme-webapp.transactions" rfl
        [sampleAccount] [sampleCharge] [] []).2⟩

/-- C9: the load operation is a total function — it cannot throw — and
it returns exactly the caller-supplied fallback when the storage
facility is absent, when the key is missing, and when the stored value
fails to deserialize. -/
theorem loadFromStorage_fallback {T : Type} (dec : Json → Option T)
    (st : Storage) (key : String) (fallback : T) :
    (st.available = false → loadFromStorage dec st key fallback = fallback) ∧
      (st.data key = none → loadFromStorage dec st key fallback = fallback) ∧
      (∀ j, st.data key = some j → dec j = none →
        loadFromStorage dec st key fallback = fallback) := by
  refine ⟨?_, ?_, ?_⟩
  · intro hav
    unfold loadFromStorage
    rw [hav]
    rfl
  · intro hnone
    unfold loadFromStorage
    rw [hnone]
    cases st.available <;> rfl
  · intro j hsome hdec
    unfold loadFromStorage
    rw [hsome]
    cases st.available
    · rfl
    · simp [hdec]

/-- C9 witness: the fallback comes back unchanged from an absent
facility, from an available store missing the key, and from a store
whose value does not deserialize. -/
theorem loadFromStorage_fallback_witness :
    (missingStorage.available = false ∧
        loadFromStorage decodeAccounts missingStorage "deneme-webapp.accounts"
          [sampleAccount] = [sampleAccount]) ∧
      (availableStorage.data "deneme-webapp.accounts" = none ∧
        loadFromStorage decodeAccounts availableStorage
          "deneme-webapp.accounts" [sampleAccount] = [sampleAccount]) ∧
      (corruptStorage.data "deneme-webapp.accounts" =
          some (Json.str "not-a-collection") ∧
        decodeAccounts (Json.str "not-a-collection") = none ∧
        loadFromStorage decodeAccounts corruptStorage "deneme-webapp.accounts"
          [sampleAccount] = [sampleAccount]) :=
  ⟨⟨rfl,
      (loadFromStorage_fallback decodeAccounts missingStorage
          "deneme-webapp.accounts" [sampleAccount]).1 rfl⟩,
    ⟨rfl,
      (loadFromStorage_fallback decodeAccounts availableStorage
          "deneme-webapp.accounts" [sampleAccount]).2.1 rfl⟩,
    ⟨rfl, rfl,
      (loadFromStorage_fallback decodeAccounts corruptStorage
          "deneme-webapp.accounts" [sampleAccount]).2.2
        (Json.str "not-a-collection") rfl rfl⟩⟩

end Deneme
